import Mathlib

/-!
Shallow embedding of the session registry and generation dispatcher of
`src/http_api.py` (the Flask handlers `http_api_open_inference_session`,
`http_api_close_inference_session`, `http_api_generate` and the helper
`get_typed_arg`), together with theorems checking the specification's claims
about them.

Modelling conventions:
* time (`hivemind.get_dht_time()`) is a natural number reading passed to every
  handler call;
* `uuid4().hex` session ids, external handles (`model.inference_session`) and
  per-session `threading.Lock` objects are identified by naturals drawn from
  fresh counters in the registry state;
* each handler body runs inside `try/except`, so failures are `Except.error`
  values and mutations performed before a raise are kept;
* `storage_lock` makes every handler's store manipulation atomic, so a handler
  is one pure state transformation.
-/

/-- Configuration surface consumed by the handlers (`config` and the `models`
directory from `app`): capacity cap, session idle TTL, default model name and
the set of model names that resolve in the directory. -/
structure Config where
  MAX_SESSIONS : Nat
  STEP_TIMEOUT : Nat
  DEFAULT_MODEL_NAME : String
  models : List String
deriving Repr, DecidableEq

/-- Python's `int(...)` and `float(...)` conversions applied by
`get_typed_arg`, abstracted as opaque total functions (floats as rationals;
no claim depends on parse failures). -/
structure Conversions where
  toInt : String → Int
  toFloat : String → ℚ

/-- The external stateful handle returned by
`model.inference_session(max_length=max_length)` at line 153: an opaque
identity plus the `max_length` it was opened with. -/
structure SessionHandle where
  hid : Nat
  max_length : Int
deriving Repr, DecidableEq

/-- One registry entry: the payload `(session, session_lock)` passed to
`inference_sessions.store` at lines 158-162, with its expiry timestamp.
The lock is represented by its identity. -/
structure Entry where
  session : SessionHandle
  lockId : Nat
  expiresAt : Nat
deriving Repr, DecidableEq

/-- Modelled from the spec: `hivemind.TimedStorage` is a third-party
collaborator whose code is not under src/; it is embedded from §4.1 "Timed
Keyed Store" as an association list from session id to entry. -/
abbrev TimedStorage := List (Nat × Entry)

/-- Modelled from the spec: lazy eviction — an entry whose `expires_at` has
passed relative to the current time behaves as absent and is swept by the
store's mutating accessors (`get`, `contains`, `len`). -/
def TimedStorage.removeOutdated (now : Nat) (s : TimedStorage) : TimedStorage :=
  s.filter (fun kv => now ≤ kv.2.expiresAt)

/-- Association-list lookup: the entry of the first pair carrying the key. -/
def TimedStorage.find (k : Nat) : TimedStorage → Option Entry
  | [] => none
  | kv :: rest => if kv.1 = k then some kv.2 else TimedStorage.find k rest

/-- Modelled from the spec: `store(key, value, expires_at)` "inserts a new
entry or refreshes an existing key's value and expiry" — overwrite in place
when the key is present, append otherwise. -/
def TimedStorage.store (k : Nat) (e : Entry) : TimedStorage → TimedStorage
  | [] => [(k, e)]
  | kv :: rest => if kv.1 = k then (k, e) :: rest else kv :: TimedStorage.store k e rest

/-- Modelled from the spec: `get(key)` returns absent if the key is missing or
expired (sweep, then lookup). -/
def TimedStorage.get (now : Nat) (k : Nat) (s : TimedStorage) : Option Entry :=
  TimedStorage.find k (TimedStorage.removeOutdated now s)

/-- Modelled from the spec: `contains(key)`, with the same expiry semantics as
`get`. -/
def TimedStorage.contains (now : Nat) (k : Nat) (s : TimedStorage) : Bool :=
  (TimedStorage.get now k s).isSome

/-- Modelled from the spec: `len()` counts the entries non-expired at call
time (the sweep-before-count policy). -/
def TimedStorage.len (now : Nat) (s : TimedStorage) : Nat :=
  (TimedStorage.removeOutdated now s).length

/-- Modelled from the spec: `remove(key)` "deletes unconditionally; no error
if absent (idempotent)". -/
def TimedStorage.remove (k : Nat) (s : TimedStorage) : TimedStorage :=
  s.filter (fun kv => kv.1 ≠ k)

/-- The module-level mutable state of http_api.py: `inference_sessions` (line
27) plus the fresh-name sources for session ids, external handles and
per-session locks. -/
structure RegistryState where
  store : TimedStorage
  nextSid : Nat
  nextHandle : Nat
  nextLock : Nat
deriving Repr, DecidableEq

/-- The state at module initialisation: `inference_sessions =
hivemind.TimedStorage()`, empty. -/
def initState : RegistryState := ⟨[], 0, 0, 0⟩

/-- The failure taxonomy (spec §7) as surfaced by the handlers' `except`
blocks: every raise is caught and reported as `ok=False` with the traceback,
so failures are returned values carrying their diagnostic payload. -/
inductive ApiError
  | unknownModel (name : String)
  | capacityExceeded (max_sessions : Nat)
  | sessionNotFound (sid : Nat)
  | generationFailure (msg : String)
deriving Repr, DecidableEq

/-- Source `get_typed_arg(name, expected_type, default=None)` (lines 237-239):
apply the conversion when the request value is present, otherwise yield the
default. -/
def get_typed_arg {α : Type} (expected_type : String → α) (value : Option String)
    (default : Option α) : Option α :=
  match value with
  | some v => some (expected_type v)
  | none => default

/-- Line 140 and line 186: `get_typed_arg("model", str, config.DEFAULT_MODEL_NAME)`. -/
def modelNameOf (cfg : Config) (modelArg : Option String) : String :=
  (get_typed_arg (fun s => s) modelArg (some cfg.DEFAULT_MODEL_NAME)).getD cfg.DEFAULT_MODEL_NAME

/-- Source `http_api_open_inference_session` (lines 137-166). The whole store
manipulation runs under `storage_lock`, hence one atomic transformation. The
capacity check's `len(inference_sessions)` sweeps expired entries, and that
sweep persists even when the handler then fails with the capacity error. On
success the handler allocates the external handle, a fresh `threading.Lock`
and a fresh id, stores the entry expiring at `now + STEP_TIMEOUT`, and
returns the id. An unknown model name raises at line 144, before any store
access. -/
def http_api_open_inference_session (cfg : Config) (cv : Conversions)
    (modelArg max_lengthArg : Option String) (now : Nat) (st : RegistryState) :
    RegistryState × Except ApiError Nat :=
  let model_name := modelNameOf cfg modelArg
  let max_length := (get_typed_arg cv.toInt max_lengthArg (some 1024)).getD 1024
  if model_name ∈ cfg.models then
    let store1 := TimedStorage.removeOutdated now st.store
    if cfg.MAX_SESSIONS ≤ store1.length then
      ({ st with store := store1 }, .error (.capacityExceeded cfg.MAX_SESSIONS))
    else
      let session : SessionHandle := ⟨st.nextHandle, max_length⟩
      let session_lock := st.nextLock
      let session_id := st.nextSid
      ({ store := TimedStorage.store session_id ⟨session, session_lock, now + cfg.STEP_TIMEOUT⟩ store1,
         nextSid := st.nextSid + 1,
         nextHandle := st.nextHandle + 1,
         nextLock := st.nextLock + 1 },
       .ok session_id)
  else (st, .error (.unknownModel model_name))

/-- Source `http_api_close_inference_session` (lines 169-180): under
`storage_lock`, `del inference_sessions[session_id]`, then echo the id.
Per the spec's store contract (§4.1) removal is idempotent, so the handler
reports ok whether or not the key was present; an absent `session_id` request
value deletes the never-present key `None`. -/
def http_api_close_inference_session (sidArg : Option Nat) (st : RegistryState) :
    RegistryState × Except ApiError (Option Nat) :=
  match sidArg with
  | none => (st, .ok none)
  | some sid => ({ st with store := TimedStorage.remove sid st.store }, .ok (some sid))

/-- The sampling parameters the generate handler forwards verbatim to
`model.generate` (lines 188-193 and 219-228). -/
structure GenParams where
  do_sample : Int
  temperature : ℚ
  top_k : Option Int
  top_p : Option ℚ
  max_length : Option Int
  max_new_tokens : Option Int
deriving Repr, DecidableEq

/-- Lines 188-193: the parsed-with-defaults sampling parameters. -/
def genParamsOf (cv : Conversions)
    (do_sampleArg temperatureArg top_kArg top_pArg max_lengthArg
      max_new_tokensArg : Option String) : GenParams :=
  { do_sample := (get_typed_arg cv.toInt do_sampleArg (some 0)).getD 0
    temperature := (get_typed_arg cv.toFloat temperatureArg (some 1)).getD 1
    top_k := get_typed_arg cv.toInt top_kArg none
    top_p := get_typed_arg cv.toFloat top_pArg none
    max_length := get_typed_arg cv.toInt max_lengthArg none
    max_new_tokens := get_typed_arg cv.toInt max_new_tokensArg none }

/-- One invocation of the external generation capability `model.generate`:
which model, the inputs (opaque — tokenisation is delegated to the tokenizer
collaborator), the sampling parameters and the bound session handle (`none`
for sessionless calls, matching `session=None`). -/
structure GenCall where
  modelName : String
  inputs : Option String
  params : GenParams
  session : Option SessionHandle
deriving Repr, DecidableEq

/-- Observable events of one generate request: acquisition and release of the
per-session lock (the `with session_lock:` block) and the external
invocation. A sessionless call uses `nullcontext()`, producing no lock
events. -/
inductive Ev
  | acquire (lockId : Nat)
  | invoke (call : GenCall)
  | release (lockId : Nat)
deriving Repr, DecidableEq

/-- Source `http_api_generate` (lines 183-234). The external capability's
outcome is the oracle `ext` (its error value is the raised exception's
diagnostic text); encoding/decoding by the tokenizer is delegated, so `ext`
yields the final decoded text. An unknown model raises at line 197, before
the session branch. With a session id, under `storage_lock`: membership test
(which sweeps expired entries — the sweep persists even when the handler then
fails), lookup, and re-store of the very pair looked up with expiry
`now + STEP_TIMEOUT`. The invocation runs inside `with session_lock:`, which
releases on every exit path, so both the success and the failure outcome
carry the release event; the handler's `except` keeps the refresh performed
before the raise. -/
def http_api_generate (cfg : Config) (cv : Conversions)
    (ext : GenCall → Except String String)
    (modelArg inputsArg do_sampleArg temperatureArg top_kArg top_pArg
      max_lengthArg max_new_tokensArg : Option String)
    (sidArg : Option Nat) (now : Nat) (st : RegistryState) :
    RegistryState × List Ev × Except ApiError String :=
  let model_name := modelNameOf cfg modelArg
  let params := genParamsOf cv do_sampleArg temperatureArg top_kArg top_pArg
    max_lengthArg max_new_tokensArg
  if model_name ∈ cfg.models then
    match sidArg with
    | some sid =>
      let store1 := TimedStorage.removeOutdated now st.store
      match TimedStorage.find sid store1 with
      | none => ({ st with store := store1 }, [], .error (.sessionNotFound sid))
      | some e =>
        let st1 : RegistryState :=
          { st with store :=
              TimedStorage.store sid ⟨e.session, e.lockId, now + cfg.STEP_TIMEOUT⟩ store1 }
        let call : GenCall := ⟨model_name, inputsArg, params, some e.session⟩
        match ext call with
        | .ok outputs =>
          (st1, [.acquire e.lockId, .invoke call, .release e.lockId], .ok outputs)
        | .error msg =>
          (st1, [.acquire e.lockId, .invoke call, .release e.lockId],
           .error (.generationFailure msg))
    | none =>
      let call : GenCall := ⟨model_name, inputsArg, params, none⟩
      match ext call with
      | .ok outputs => (st, [.invoke call], .ok outputs)
      | .error msg => (st, [.invoke call], .error (.generationFailure msg))
  else (st, [], .error (.unknownModel model_name))

/-- One registry-mutating request for the capacity analysis: an open or a
close, tagged with the time at which it runs. -/
inductive Op
  | openOp (modelArg max_lengthArg : Option String) (now : Nat)
  | closeOp (sidArg : Option Nat)

/-- The state transformation of one request (the handler's returned state). -/
def execOp (cfg : Config) (cv : Conversions) (st : RegistryState) : Op → RegistryState
  | .openOp m ml now => (http_api_open_inference_session cfg cv m ml now st).1
  | .closeOp sid => (http_api_close_inference_session sid st).1

/-- The registry state after a sequence of open/close requests. -/
def execOps (cfg : Config) (cv : Conversions) (st : RegistryState)
    (ops : List Op) : RegistryState :=
  ops.foldl (execOp cfg cv) st

/-- Live (non-expired) sessions registered at time `now`. -/
def liveCount (now : Nat) (st : RegistryState) : Nat :=
  TimedStorage.len now st.store

/-! Basic lemmas about the spec-modelled Timed Keyed Store. -/

theorem TimedStorage.find_store_self (k : Nat) (e : Entry) (s : TimedStorage) :
    TimedStorage.find k (TimedStorage.store k e s) = some e := by
  induction s with
  | nil => simp [TimedStorage.store, TimedStorage.find]
  | cons kv rest ih =>
    by_cases h : kv.1 = k
    · simp [TimedStorage.store, h, TimedStorage.find]
    · simp [TimedStorage.store, h, TimedStorage.find, ih]

theorem TimedStorage.find_store_ne (k k' : Nat) (e : Entry) (s : TimedStorage)
    (h : k' ≠ k) :
    TimedStorage.find k' (TimedStorage.store k e s) = TimedStorage.find k' s := by
  induction s with
  | nil => simp [TimedStorage.store, TimedStorage.find, Ne.symm h]
  | cons kv rest ih =>
    by_cases hk : kv.1 = k
    · subst hk
      simp [TimedStorage.store, TimedStorage.find, Ne.symm h]
    · simp [TimedStorage.store, hk, TimedStorage.find, ih]

theorem TimedStorage.length_store_le (k : Nat) (e : Entry) (s : TimedStorage) :
    (TimedStorage.store k e s).length ≤ s.length + 1 := by
  induction s with
  | nil => simp [TimedStorage.store]
  | cons kv rest ih =>
    by_cases h : kv.1 = k
    · simp [TimedStorage.store, h]
    · simp only [TimedStorage.store, h, if_false, List.length_cons]
      omega

theorem TimedStorage.store_of_find_none (k : Nat) (e : Entry) (s : TimedStorage)
    (h : TimedStorage.find k s = none) :
    TimedStorage.store k e s = s ++ [(k, e)] := by
  induction s with
  | nil => simp [TimedStorage.store]
  | cons kv rest ih =>
    by_cases hk : kv.1 = k
    · simp [TimedStorage.find, hk] at h
    · simp only [TimedStorage.find, hk, if_false] at h
      simp [TimedStorage.store, hk, ih h]

theorem TimedStorage.find_eq_none_of_not_mem_keys (k : Nat) (s : TimedStorage)
    (h : k ∉ s.map Prod.fst) : TimedStorage.find k s = none := by
  induction s with
  | nil => rfl
  | cons kv rest ih =>
    simp only [List.map_cons, List.mem_cons, not_or] at h
    have h1 : ¬ kv.1 = k := fun hc => h.1 hc.symm
    simp [TimedStorage.find, h1, ih h.2]

theorem TimedStorage.find_eq_none_of_keys_lt (n : Nat) (s : TimedStorage)
    (h : ∀ kv ∈ s, kv.1 < n) : TimedStorage.find n s = none := by
  apply TimedStorage.find_eq_none_of_not_mem_keys
  intro hmem
  rcases List.mem_map.mp hmem with ⟨kv, hkv, hfst⟩
  exact absurd (hfst ▸ h kv hkv) (lt_irrefl n)

theorem TimedStorage.find_filter_none (k : Nat) (p : Nat × Entry → Bool)
    (s : TimedStorage) (h : TimedStorage.find k s = none) :
    TimedStorage.find k (s.filter p) = none := by
  induction s with
  | nil => rfl
  | cons kv rest ih =>
    by_cases hk : kv.1 = k
    · simp [TimedStorage.find, hk] at h
    · simp only [TimedStorage.find, hk, if_false] at h
      by_cases hp : p kv
      · simp [List.filter_cons, hp, TimedStorage.find, hk, ih h]
      · simp [List.filter_cons, hp, ih h]

theorem TimedStorage.find_filter_of_nodup (k : Nat) (e : Entry)
    (p : Nat × Entry → Bool) (s : TimedStorage)
    (hnd : (s.map Prod.fst).Nodup) (h : TimedStorage.find k s = some e) :
    TimedStorage.find k (s.filter p) = if p (k, e) then some e else none := by
  induction s with
  | nil => simp [TimedStorage.find] at h
  | cons kv rest ih =>
    simp only [List.map_cons, List.nodup_cons] at hnd
    by_cases hk : kv.1 = k
    · simp only [TimedStorage.find, hk, if_true, Option.some.injEq] at h
      have hkv : kv = (k, e) := by
        cases kv; cases h; cases hk; rfl
      subst hkv
      by_cases hp : p (k, e)
      · simp [List.filter_cons, hp, TimedStorage.find]
      · simp only [List.filter_cons]
        rw [if_neg (by simpa using hp)]
        rw [if_neg (by simpa using hp)]
        apply TimedStorage.find_filter_none
        exact TimedStorage.find_eq_none_of_not_mem_keys _ _ hnd.1
    · simp only [TimedStorage.find, hk, if_false] at h
      by_cases hp : p kv
      · simp [List.filter_cons, hp, TimedStorage.find, hk, ih hnd.2 h]
      · simp [List.filter_cons, hp, ih hnd.2 h]

theorem TimedStorage.find_removeOutdated_live (now k : Nat) (e : Entry)
    (s : TimedStorage) (hnd : (s.map Prod.fst).Nodup)
    (h : TimedStorage.find k s = some e) (hlive : now ≤ e.expiresAt) :
    TimedStorage.find k (TimedStorage.removeOutdated now s) = some e := by
  unfold TimedStorage.removeOutdated
  rw [TimedStorage.find_filter_of_nodup k e _ s hnd h]
  simp [hlive]

theorem TimedStorage.find_removeOutdated_expired (now k : Nat) (e : Entry)
    (s : TimedStorage) (hnd : (s.map Prod.fst).Nodup)
    (h : TimedStorage.find k s = some e) (hexp : e.expiresAt < now) :
    TimedStorage.find k (TimedStorage.removeOutdated now s) = none := by
  unfold TimedStorage.removeOutdated
  rw [TimedStorage.find_filter_of_nodup k e _ s hnd h]
  simp [Nat.not_le_of_lt hexp]

theorem TimedStorage.remove_of_find_none (k : Nat) (s : TimedStorage)
    (h : TimedStorage.find k s = none) : TimedStorage.remove k s = s := by
  induction s with
  | nil => rfl
  | cons kv rest ih =>
    by_cases hk : kv.1 = k
    · simp [TimedStorage.find, hk] at h
    · simp only [TimedStorage.find, hk, if_false] at h
      have ih' := ih h
      simp only [TimedStorage.remove, ne_eq, decide_not] at ih' ⊢
      have hcond : (!decide (kv.1 = k)) = true := by simp [hk]
      rw [List.filter_cons, if_pos hcond, ih']

theorem TimedStorage.find_remove_self (k : Nat) (s : TimedStorage) :
    TimedStorage.find k (TimedStorage.remove k s) = none := by
  induction s with
  | nil => rfl
  | cons kv rest ih =>
    simp only [TimedStorage.remove, ne_eq, decide_not] at ih ⊢
    by_cases hk : kv.1 = k
    · have hcond : (!decide (kv.1 = k)) = false := by simp [hk]
      rw [List.filter_cons, hcond]
      simpa using ih
    · have hcond : (!decide (kv.1 = k)) = true := by simp [hk]
      rw [List.filter_cons, if_pos hcond]
      simp [TimedStorage.find, hk, ih]

theorem TimedStorage.keys_store_of_find_some (k : Nat) (e e' : Entry)
    (s : TimedStorage) (h : TimedStorage.find k s = some e') :
    (TimedStorage.store k e s).map Prod.fst = s.map Prod.fst := by
  induction s with
  | nil => simp [TimedStorage.find] at h
  | cons kv rest ih =>
    by_cases hk : kv.1 = k
    · simp [TimedStorage.store, hk]
    · simp only [TimedStorage.find, hk, if_false] at h
      simp [TimedStorage.store, hk, ih h]

theorem TimedStorage.nodup_keys_removeOutdated (now : Nat) (s : TimedStorage)
    (h : (s.map Prod.fst).Nodup) :
    ((TimedStorage.removeOutdated now s).map Prod.fst).Nodup :=
  List.Nodup.sublist (List.Sublist.map Prod.fst (List.filter_sublist s)) h

/-! Concrete fixtures used by the witness theorems. -/

/-- A concrete configuration: capacity 2, TTL 10, one known model name. -/
def cfg0 : Config :=
  { MAX_SESSIONS := 2, STEP_TIMEOUT := 10, DEFAULT_MODEL_NAME := "m", models := ["m"] }

/-- Concrete stand-ins for Python's `int`/`float` conversions. -/
def cv0 : Conversions := { toInt := fun _ => 0, toFloat := fun _ => 0 }

/-- An external generation capability that always succeeds. -/
def extOk : GenCall → Except String String := fun _ => .ok ("out")

/-- An external generation capability that always raises. -/
def extFail : GenCall → Except String String := fun _ => .error ("boom")

/-- The entry created by a first successful open at time 0 under `cfg0`. -/
def e0 : Entry := ⟨⟨0, 1024⟩, 0, 10⟩

/-- The registry state holding exactly that one session. -/
def st1 : RegistryState := ⟨[(0, e0)], 1, 1, 1⟩

/-! Claim theorems. -/

/-- C7: `close(session_id)` removes the entry when present; when the id is
absent (or already closed) the registry state is left unchanged, and the
handler follows one single policy consistently — it reports success
idempotently (the spec §4.1 store's `remove` ignores a missing key), echoing
the id. -/
theorem http_api_close_contract (sidArg : Option Nat) (st : RegistryState) :
    (http_api_close_inference_session sidArg st).2 = .ok sidArg
    ∧ (∀ sid, sidArg = some sid →
        (http_api_close_inference_session sidArg st).1.store
          = TimedStorage.remove sid st.store
        ∧ TimedStorage.find sid (http_api_close_inference_session sidArg st).1.store
            = none)
    ∧ (∀ sid, sidArg = some sid → TimedStorage.find sid st.store = none →
        http_api_close_inference_session sidArg st = (st, .ok (some sid)))
    ∧ (sidArg = none → http_api_close_inference_session sidArg st = (st, .ok none)) := by
  refine ⟨?_, ?_, ?_, ?_⟩
  · cases sidArg <;> rfl
  · rintro sid rfl
    exact ⟨rfl, TimedStorage.find_remove_self sid st.store⟩
  · rintro sid rfl hnone
    simp [http_api_close_inference_session,
      TimedStorage.remove_of_find_none sid st.store hnone]
  · rintro rfl
    rfl

/-- C7 witness: closing an unknown id on a one-session registry leaves the
state untouched and reports ok; closing the present id removes it. -/
theorem http_api_close_contract_witness :
    http_api_close_inference_session (some 5) st1 = (st1, .ok (some 5))
    ∧ (http_api_close_inference_session (some 0) st1).1.store
        = TimedStorage.remove 0 st1.store
    ∧ TimedStorage.find 0 (http_api_close_inference_session (some 0) st1).1.store
        = none := by
  have h5 := http_api_close_contract (some 5) st1
  have h0 := http_api_close_contract (some 0) st1
  exact ⟨h5.2.2.1 5 rfl (by decide), (h0.2.1 0 rfl).1, (h0.2.1 0 rfl).2⟩

/-- C8: a model name that does not resolve in the configured directory makes
both `open_inference_session` and `generate` fail with the unknown-model
error, reported at the request boundary with the registry state unchanged —
no entry created, no handle allocated, no event emitted. -/
theorem unknown_model_rejected (cfg : Config) (cv : Conversions)
    (ext : GenCall → Except String String)
    (modelArg maxLenArg inputsArg a1 a2 a3 a4 a5 a6 : Option String)
    (sidArg : Option Nat) (now : Nat) (st : RegistryState)
    (hm : modelNameOf cfg modelArg ∉ cfg.models) :
    http_api_open_inference_session cfg cv modelArg maxLenArg now st
      = (st, .error (.unknownModel (modelNameOf cfg modelArg)))
    ∧ http_api_generate cfg cv ext modelArg inputsArg a1 a2 a3 a4 a5 a6 sidArg now st
      = (st, [], .error (.unknownModel (modelNameOf cfg modelArg))) := by
  constructor
  · simp [http_api_open_inference_session, hm]
  · simp [http_api_generate, hm]

/-- C8 witness: requesting model "x" (not in the directory) is rejected by
both handlers without touching the one-session registry. -/
theorem unknown_model_rejected_witness :
    http_api_open_inference_session cfg0 cv0 (some ("x")) none 0 st1
      = (st1, .error (.unknownModel ("x")))
    ∧ http_api_generate cfg0 cv0 extOk (some ("x")) none none none none none none none
        (some 0) 0 st1
      = (st1, [], .error (.unknownModel ("x"))) :=
  unknown_model_rejected cfg0 cv0 extOk (some ("x")) none none none none none none none
    none (some 0) 0 st1 (by decide)

/-- C6: a generate call with no `session_id` and a valid model leaves the
registry exactly unchanged, acquires no per-session lock (the `nullcontext()`
branch emits no lock events — only the single invocation), and returns the
generated text. -/
theorem sessionless_generate_frame (cfg : Config) (cv : Conversions)
    (ext : GenCall → Except String String)
    (modelArg inputsArg a1 a2 a3 a4 a5 a6 : Option String)
    (now : Nat) (st : RegistryState) (out : String)
    (hm : modelNameOf cfg modelArg ∈ cfg.models)
    (hext : ext ⟨modelNameOf cfg modelArg, inputsArg,
        genParamsOf cv a1 a2 a3 a4 a5 a6, none⟩ = .ok out) :
    http_api_generate cfg cv ext modelArg inputsArg a1 a2 a3 a4 a5 a6 none now st
      = (st,
         [Ev.invoke ⟨modelNameOf cfg modelArg, inputsArg,
            genParamsOf cv a1 a2 a3 a4 a5 a6, none⟩],
         .ok out) := by
  simp [http_api_generate, hm, hext]

/-- C6 witness: a sessionless generate on the one-session registry returns
the text and the state is untouched. -/
theorem sessionless_generate_frame_witness :
    http_api_generate cfg0 cv0 extOk none none none none none none none none none 0 st1
      = (st1,
         [Ev.invoke ⟨modelNameOf cfg0 none, none,
            genParamsOf cv0 none none none none none none, none⟩],
         .ok ("out")) :=
  sessionless_generate_frame cfg0 cv0 extOk none none none none none none none none
    0 st1 ("out") (by decide) rfl

/-- C10: at the public interface, an absent `model` parameter resolves to
`config.DEFAULT_MODEL_NAME` (both handlers); an absent `max_length` in open
defaults to 1024 (recorded in the handle opened for the new session); in
generate, absent `do_sample` defaults to 0, absent `temperature` to 1, and
absent `top_k`, `top_p`, `max_length`, `max_new_tokens` to no value, passed
through to the generation capability; and `get_typed_arg` yields its default
exactly when the request value is absent. -/
theorem default_arguments (cfg : Config) (cv : Conversions)
    (ext : GenCall → Except String String) (f : String → Int) (d : Option Int)
    (maxLenArg inputsArg : Option String) (now : Nat) (st : RegistryState) :
    get_typed_arg f none d = d
    ∧ modelNameOf cfg none = cfg.DEFAULT_MODEL_NAME
    ∧ http_api_open_inference_session cfg cv none maxLenArg now st
        = http_api_open_inference_session cfg cv (some cfg.DEFAULT_MODEL_NAME)
            maxLenArg now st
    ∧ (∀ modelArg, modelNameOf cfg modelArg ∈ cfg.models →
        TimedStorage.len now st.store < cfg.MAX_SESSIONS →
        (http_api_open_inference_session cfg cv modelArg none now st).1.store
          = TimedStorage.store st.nextSid
              ⟨⟨st.nextHandle, 1024⟩, st.nextLock, now + cfg.STEP_TIMEOUT⟩
              (TimedStorage.removeOutdated now st.store))
    ∧ genParamsOf cv none none none none none none = ⟨0, 1, none, none, none, none⟩
    ∧ (∀ modelArg, modelNameOf cfg modelArg ∈ cfg.models →
        (http_api_generate cfg cv ext modelArg inputsArg none none none none none none
            none now st).2.1
          = [Ev.invoke ⟨modelNameOf cfg modelArg, inputsArg,
              ⟨0, 1, none, none, none, none⟩, none⟩]) := by
  refine ⟨rfl, rfl, rfl, ?_, rfl, ?_⟩
  · intro modelArg hm hcap
    have hlt : ¬ cfg.MAX_SESSIONS ≤ (TimedStorage.removeOutdated now st.store).length :=
      Nat.not_le_of_lt hcap
    simp [http_api_open_inference_session, hm, hlt, get_typed_arg]
  · intro modelArg hm
    cases hext : ext ⟨modelNameOf cfg modelArg, inputsArg,
        ⟨0, 1, none, none, none, none⟩, none⟩ with
    | ok out =>
      simp [http_api_generate, hm, genParamsOf, get_typed_arg, hext]
    | error msg =>
      simp [http_api_generate, hm, genParamsOf, get_typed_arg, hext]

/-- C10 witness: with every optional field absent, open stores a handle with
max_length 1024 under the default model, and generate invokes the capability
with do_sample 0, temperature 1 and no top_k/top_p/max_length/max_new_tokens. -/
theorem default_arguments_witness :
    get_typed_arg cv0.toInt none (some 7) = some 7
    ∧ modelNameOf cfg0 none = cfg0.DEFAULT_MODEL_NAME
    ∧ (http_api_open_inference_session cfg0 cv0 none none 0 initState).1.store
        = TimedStorage.store initState.nextSid
            ⟨⟨initState.nextHandle, 1024⟩, initState.nextLock, 0 + cfg0.STEP_TIMEOUT⟩
            (TimedStorage.removeOutdated 0 initState.store)
    ∧ (http_api_generate cfg0 cv0 extOk none none none none none none none none
          none 0 initState).2.1
        = [Ev.invoke ⟨modelNameOf cfg0 none, none, ⟨0, 1, none, none, none, none⟩, none⟩] := by
  have h := default_arguments cfg0 cv0 extOk cv0.toInt (some 7) none none 0 initState
  exact ⟨h.1, h.2.1, h.2.2.2.1 none (by decide) (by decide), h.2.2.2.2.2 none (by decide)⟩

/-- C4: when the model resolves and capacity allows, open allocates a fresh
unique session id (never a key of the registry before), opens the external
stateful handle (consuming the handle source), creates a fresh per-session
lock, inserts the entry under that id with expiry `now + STEP_TIMEOUT`, and
returns the new id — all in the single critical section the handler holds. -/
theorem http_api_open_success (cfg : Config) (cv : Conversions)
    (modelArg maxLenArg : Option String) (now : Nat) (st : RegistryState)
    (hm : modelNameOf cfg modelArg ∈ cfg.models)
    (hcap : TimedStorage.len now st.store < cfg.MAX_SESSIONS)
    (hfresh : ∀ kv ∈ st.store, kv.1 < st.nextSid) :
    http_api_open_inference_session cfg cv modelArg maxLenArg now st
      = ({ store := TimedStorage.removeOutdated now st.store
             ++ [(st.nextSid,
                  ⟨⟨st.nextHandle, (get_typed_arg cv.toInt maxLenArg (some 1024)).getD 1024⟩,
                   st.nextLock, now + cfg.STEP_TIMEOUT⟩)],
           nextSid := st.nextSid + 1, nextHandle := st.nextHandle + 1,
           nextLock := st.nextLock + 1 },
         .ok st.nextSid)
    ∧ TimedStorage.find st.nextSid st.store = none := by
  have hfresh1 : ∀ kv ∈ TimedStorage.removeOutdated now st.store, kv.1 < st.nextSid :=
    fun kv hkv => hfresh kv (List.mem_of_mem_filter hkv)
  have hnone : TimedStorage.find st.nextSid (TimedStorage.removeOutdated now st.store)
      = none := TimedStorage.find_eq_none_of_keys_lt _ _ hfresh1
  have hlt : ¬ cfg.MAX_SESSIONS ≤ (TimedStorage.removeOutdated now st.store).length :=
    Nat.not_le_of_lt hcap
  constructor
  · simp [http_api_open_inference_session, hm, hlt,
      TimedStorage.store_of_find_none _ _ _ hnone]
  · exact TimedStorage.find_eq_none_of_keys_lt _ _ hfresh

/-- C4 witness: a second open on the one-session registry returns the fresh
id 1, appends its entry with expiry 5 + STEP_TIMEOUT, and consumes the
handle and lock counters. -/
theorem http_api_open_success_witness :
    http_api_open_inference_session cfg0 cv0 none none 5 st1
      = ({ store := TimedStorage.removeOutdated 5 st1.store
             ++ [(st1.nextSid,
                  ⟨⟨st1.nextHandle, (get_typed_arg cv0.toInt none (some 1024)).getD 1024⟩,
                   st1.nextLock, 5 + cfg0.STEP_TIMEOUT⟩)],
           nextSid := st1.nextSid + 1, nextHandle := st1.nextHandle + 1,
           nextLock := st1.nextLock + 1 },
         .ok st1.nextSid)
    ∧ TimedStorage.find st1.nextSid st1.store = none :=
  http_api_open_success cfg0 cv0 none none 5 st1 (by decide) (by decide) (by decide)

/-- C3: generate with a session id behaves as touch-and-refresh — an id that
is absent from the store, or whose expiry has passed, fails with the
session-not-found error (keeping only the lazy sweep); a live id has its
entry refreshed to expire at `now + STEP_TIMEOUT`, and it is therefore still
found by any access at most `STEP_TIMEOUT` after `now`, so a session accessed
at intervals shorter than `STEP_TIMEOUT` never expires. -/
theorem http_api_generate_touch_refresh (cfg : Config) (cv : Conversions)
    (ext : GenCall → Except String String)
    (modelArg inputsArg a1 a2 a3 a4 a5 a6 : Option String)
    (sid : Nat) (now : Nat) (st : RegistryState)
    (hm : modelNameOf cfg modelArg ∈ cfg.models)
    (hnd : (st.store.map Prod.fst).Nodup) :
    (TimedStorage.find sid st.store = none →
      http_api_generate cfg cv ext modelArg inputsArg a1 a2 a3 a4 a5 a6 (some sid) now st
        = ({ st with store := TimedStorage.removeOutdated now st.store }, [],
           .error (.sessionNotFound sid)))
    ∧ (∀ e, TimedStorage.find sid st.store = some e → e.expiresAt < now →
        http_api_generate cfg cv ext modelArg inputsArg a1 a2 a3 a4 a5 a6 (some sid) now st
          = ({ st with store := TimedStorage.removeOutdated now st.store }, [],
             .error (.sessionNotFound sid)))
    ∧ (∀ e, TimedStorage.find sid st.store = some e → now ≤ e.expiresAt →
        TimedStorage.find sid
            (http_api_generate cfg cv ext modelArg inputsArg a1 a2 a3 a4 a5 a6
              (some sid) now st).1.store
          = some ⟨e.session, e.lockId, now + cfg.STEP_TIMEOUT⟩
        ∧ (∀ t, t ≤ now + cfg.STEP_TIMEOUT →
            TimedStorage.find sid (TimedStorage.removeOutdated t
                (http_api_generate cfg cv ext modelArg inputsArg a1 a2 a3 a4 a5 a6
                  (some sid) now st).1.store)
              = some ⟨e.session, e.lockId, now + cfg.STEP_TIMEOUT⟩)) := by
  refine ⟨?_, ?_, ?_⟩
  · intro habs
    have h1 : TimedStorage.find sid (TimedStorage.removeOutdated now st.store) = none :=
      TimedStorage.find_filter_none _ _ _ habs
    simp [http_api_generate, hm, h1]
  · intro e hfind hexp
    have h1 := TimedStorage.find_removeOutdated_expired now sid e st.store hnd hfind hexp
    simp [http_api_generate, hm, h1]
  · intro e hfind hlive
    have h1 := TimedStorage.find_removeOutdated_live now sid e st.store hnd hfind hlive
    have hstoreEq :
        (http_api_generate cfg cv ext modelArg inputsArg a1 a2 a3 a4 a5 a6
            (some sid) now st).1.store
          = TimedStorage.store sid ⟨e.session, e.lockId, now + cfg.STEP_TIMEOUT⟩
              (TimedStorage.removeOutdated now st.store) := by
      cases hext : ext ⟨modelNameOf cfg modelArg, inputsArg,
          genParamsOf cv a1 a2 a3 a4 a5 a6, some e.session⟩ with
      | ok out => simp [http_api_generate, hm, h1, hext]
      | error msg => simp [http_api_generate, hm, h1, hext]
    have hnd1 : ((TimedStorage.store sid ⟨e.session, e.lockId, now + cfg.STEP_TIMEOUT⟩
        (TimedStorage.removeOutdated now st.store)).map Prod.fst).Nodup := by
      rw [TimedStorage.keys_store_of_find_some _ _ e _ h1]
      exact TimedStorage.nodup_keys_removeOutdated now st.store hnd
    constructor
    · rw [hstoreEq]
      exact TimedStorage.find_store_self _ _ _
    · intro t ht
      rw [hstoreEq]
      exact TimedStorage.find_removeOutdated_live t sid _ _ hnd1
        (TimedStorage.find_store_self _ _ _) ht

/-- C3 witness: on the one-session registry, generate at time 5 refreshes the
live session 0 to expire at 15, while generate on the unknown id 3 fails with
the session-not-found error. -/
theorem http_api_generate_touch_refresh_witness :
    TimedStorage.find 0 st1.store = some e0
    ∧ (5 : Nat) ≤ e0.expiresAt
    ∧ TimedStorage.find 0
        (http_api_generate cfg0 cv0 extOk none none none none none none none none
          (some 0) 5 st1).1.store
      = some ⟨e0.session, e0.lockId, 5 + cfg0.STEP_TIMEOUT⟩
    ∧ http_api_generate cfg0 cv0 extOk none none none none none none none none
        (some 3) 5 st1
      = ({ st1 with store := TimedStorage.removeOutdated 5 st1.store }, [],
         .error (.sessionNotFound 3)) := by
  have h0 := http_api_generate_touch_refresh cfg0 cv0 extOk none none none none none
    none none none 0 5 st1 (by decide) (by decide)
  have h3 := http_api_generate_touch_refresh cfg0 cv0 extOk none none none none none
    none none none 3 5 st1 (by decide) (by decide)
  exact ⟨by decide, by decide, (h0.2.2 e0 (by decide) (by decide)).1, h3.1 (by decide)⟩

/-- C5: when the external generation capability raises during a session-bound
generate, the per-session lock is still released on that exit path (the
release event follows the invocation), the failure is reported to the caller
with its diagnostic detail, and the session's registry entry remains present
(refreshed), so the session stays usable. -/
theorem http_api_generate_failure_path (cfg : Config) (cv : Conversions)
    (ext : GenCall → Except String String)
    (modelArg inputsArg a1 a2 a3 a4 a5 a6 : Option String)
    (sid : Nat) (now : Nat) (st : RegistryState) (e : Entry) (msg : String)
    (hm : modelNameOf cfg modelArg ∈ cfg.models)
    (hfind : TimedStorage.find sid (TimedStorage.removeOutdated now st.store) = some e)
    (hext : ext ⟨modelNameOf cfg modelArg, inputsArg,
        genParamsOf cv a1 a2 a3 a4 a5 a6, some e.session⟩ = .error msg) :
    http_api_generate cfg cv ext modelArg inputsArg a1 a2 a3 a4 a5 a6 (some sid) now st
      = ({ st with store := TimedStorage.store sid ⟨e.session, e.lockId, now + cfg.STEP_TIMEOUT⟩ (TimedStorage.removeOutdated now st.store) },
         [Ev.acquire e.lockId,
          Ev.invoke ⟨modelNameOf cfg modelArg, inputsArg,
            genParamsOf cv a1 a2 a3 a4 a5 a6, some e.session⟩,
          Ev.release e.lockId],
         .error (.generationFailure msg))
    ∧ TimedStorage.find sid
        (http_api_generate cfg cv ext modelArg inputsArg a1 a2 a3 a4 a5 a6
          (some sid) now st).1.store
      = some ⟨e.session, e.lockId, now + cfg.STEP_TIMEOUT⟩ := by
  have heq : http_api_generate cfg cv ext modelArg inputsArg a1 a2 a3 a4 a5 a6
      (some sid) now st
      = ({ st with store := TimedStorage.store sid ⟨e.session, e.lockId, now + cfg.STEP_TIMEOUT⟩ (TimedStorage.removeOutdated now st.store) },
         [Ev.acquire e.lockId,
          Ev.invoke ⟨modelNameOf cfg modelArg, inputsArg,
            genParamsOf cv a1 a2 a3 a4 a5 a6, some e.session⟩,
          Ev.release e.lockId],
         .error (.generationFailure msg)) := by
    simp [http_api_generate, hm, hfind, hext]
  refine ⟨heq, ?_⟩
  rw [heq]
  exact TimedStorage.find_store_self _ _ _

/-- C5 witness: a raising capability on the live session 0 yields the
generation-failure report carrying "boom", the acquire/invoke/release event
sequence, and an entry still present with refreshed expiry. -/
theorem http_api_generate_failure_path_witness :
    http_api_generate cfg0 cv0 extFail none none none none none none none none
        (some 0) 5 st1
      = ({ st1 with store := TimedStorage.store 0 ⟨e0.session, e0.lockId, 5 + cfg0.STEP_TIMEOUT⟩ (TimedStorage.removeOutdated 5 st1.store) },
         [Ev.acquire e0.lockId,
          Ev.invoke ⟨modelNameOf cfg0 none, none,
            genParamsOf cv0 none none none none none none, some e0.session⟩,
          Ev.release e0.lockId],
         .error (.generationFailure ("boom")))
    ∧ TimedStorage.find 0
        (http_api_generate cfg0 cv0 extFail none none none none none none none none
          (some 0) 5 st1).1.store
      = some ⟨e0.session, e0.lockId, 5 + cfg0.STEP_TIMEOUT⟩ :=
  http_api_generate_failure_path cfg0 cv0 extFail none none none none none none none
    none 0 5 st1 e0 ("boom") (by decide) (by decide) rfl

/-- C9: the expiry refresh performed by a session-bound generate re-stores
exactly the (session, lock) pair it looked up under the same key: afterwards
the entry for the id holds the same session handle and the same lock
identity, only the expiry timestamp differs, and no other key of the
(swept) registry is modified. -/
theorem refresh_preserves_payload (cfg : Config) (cv : Conversions)
    (ext : GenCall → Except String String)
    (modelArg inputsArg a1 a2 a3 a4 a5 a6 : Option String)
    (sid : Nat) (now : Nat) (st : RegistryState) (e : Entry)
    (hm : modelNameOf cfg modelArg ∈ cfg.models)
    (hfind : TimedStorage.find sid (TimedStorage.removeOutdated now st.store) = some e) :
    TimedStorage.find sid
        (http_api_generate cfg cv ext modelArg inputsArg a1 a2 a3 a4 a5 a6
          (some sid) now st).1.store
      = some ⟨e.session, e.lockId, now + cfg.STEP_TIMEOUT⟩
    ∧ (∀ k, k ≠ sid →
        TimedStorage.find k
            (http_api_generate cfg cv ext modelArg inputsArg a1 a2 a3 a4 a5 a6
              (some sid) now st).1.store
          = TimedStorage.find k (TimedStorage.removeOutdated now st.store)) := by
  have hstoreEq :
      (http_api_generate cfg cv ext modelArg inputsArg a1 a2 a3 a4 a5 a6
          (some sid) now st).1.store
        = TimedStorage.store sid ⟨e.session, e.lockId, now + cfg.STEP_TIMEOUT⟩
            (TimedStorage.removeOutdated now st.store) := by
    cases hext : ext ⟨modelNameOf cfg modelArg, inputsArg,
        genParamsOf cv a1 a2 a3 a4 a5 a6, some e.session⟩ with
    | ok out => simp [http_api_generate, hm, hfind, hext]
    | error msg => simp [http_api_generate, hm, hfind, hext]
  constructor
  · rw [hstoreEq]
    exact TimedStorage.find_store_self _ _ _
  · intro k hk
    rw [hstoreEq]
    exact TimedStorage.find_store_ne _ _ _ _ hk

/-- C9 witness: refreshing session 0 at time 5 keeps handle and lock identity
0 with the new expiry 15, and leaves the absent key 3 absent. -/
theorem refresh_preserves_payload_witness :
    TimedStorage.find 0
        (http_api_generate cfg0 cv0 extOk none none none none none none none none
          (some 0) 5 st1).1.store
      = some ⟨e0.session, e0.lockId, 5 + cfg0.STEP_TIMEOUT⟩
    ∧ TimedStorage.find 3
        (http_api_generate cfg0 cv0 extOk none none none none none none none none
          (some 0) 5 st1).1.store
      = TimedStorage.find 3 (TimedStorage.removeOutdated 5 st1.store) := by
  have h := refresh_preserves_payload cfg0 cv0 extOk none none none none none none
    none none 0 5 st1 e0 (by decide) (by decide)
  exact ⟨h.1, h.2 3 (by decide)⟩

theorem TimedStorage.length_removeOutdated_le (now : Nat) (s : TimedStorage) :
    (TimedStorage.removeOutdated now s).length ≤ s.length :=
  List.length_filter_le _ s

theorem TimedStorage.length_remove_le (k : Nat) (s : TimedStorage) :
    (TimedStorage.remove k s).length ≤ s.length :=
  List.length_filter_le _ s

theorem open_store_length_le (cfg : Config) (cv : Conversions)
    (m ml : Option String) (now : Nat) (st : RegistryState)
    (h : st.store.length ≤ cfg.MAX_SESSIONS) :
    (http_api_open_inference_session cfg cv m ml now st).1.store.length
      ≤ cfg.MAX_SESSIONS := by
  by_cases hm : modelNameOf cfg m ∈ cfg.models
  · by_cases hcap : cfg.MAX_SESSIONS ≤ (TimedStorage.removeOutdated now st.store).length
    · simp only [http_api_open_inference_session, hm, if_true, hcap]
      exact le_trans (TimedStorage.length_removeOutdated_le now st.store) h
    · have h1 := TimedStorage.length_store_le st.nextSid
        ⟨⟨st.nextHandle, (get_typed_arg cv.toInt ml (some 1024)).getD 1024⟩,
         st.nextLock, now + cfg.STEP_TIMEOUT⟩
        (TimedStorage.removeOutdated now st.store)
      have h2 : (TimedStorage.removeOutdated now st.store).length < cfg.MAX_SESSIONS :=
        Nat.lt_of_not_le hcap
      simp only [http_api_open_inference_session, hm, if_true, hcap, if_false]
      omega
  · simp only [http_api_open_inference_session, hm, if_false]
    exact h

theorem execOp_store_length_le (cfg : Config) (cv : Conversions) (st : RegistryState)
    (op : Op) (h : st.store.length ≤ cfg.MAX_SESSIONS) :
    (execOp cfg cv st op).store.length ≤ cfg.MAX_SESSIONS := by
  cases op with
  | openOp m ml now => exact open_store_length_le cfg cv m ml now st h
  | closeOp sidArg =>
    cases sidArg with
    | none => exact h
    | some sid =>
      simp only [execOp, http_api_close_inference_session]
      exact le_trans (TimedStorage.length_remove_le sid st.store) h

theorem execOps_store_length_le (cfg : Config) (cv : Conversions) (ops : List Op) :
    ∀ st : RegistryState, st.store.length ≤ cfg.MAX_SESSIONS →
      (execOps cfg cv st ops).store.length ≤ cfg.MAX_SESSIONS := by
  induction ops with
  | nil => intro st h; exact h
  | cons op rest ih =>
    intro st h
    simp only [execOps, List.foldl_cons]
    exact ih _ (execOp_store_length_le cfg cv st op h)

/-- C1: over every sequence of open/close requests from the initial empty
registry, the number of live (non-expired, non-closed) sessions never exceeds
`MAX_SESSIONS`; and an open issued while the store already counts
`MAX_SESSIONS` live entries fails with the capacity error before allocating
any external handle — its only state change is the lazy sweep done by the
`len()` check, and the handle source is untouched. -/
theorem capacity_invariant (cfg : Config) (cv : Conversions) (ops : List Op)
    (now : Nat) :
    liveCount now (execOps cfg cv initState ops) ≤ cfg.MAX_SESSIONS
    ∧ (∀ modelArg maxLenArg t st, modelNameOf cfg modelArg ∈ cfg.models →
        cfg.MAX_SESSIONS ≤ TimedStorage.len t st.store →
        http_api_open_inference_session cfg cv modelArg maxLenArg t st
          = ({ st with store := TimedStorage.removeOutdated t st.store },
             .error (.capacityExceeded cfg.MAX_SESSIONS))
        ∧ (http_api_open_inference_session cfg cv modelArg maxLenArg t st).1.nextHandle
            = st.nextHandle) := by
  constructor
  · have h := execOps_store_length_le cfg cv ops initState (by simp [initState])
    exact le_trans
      (TimedStorage.length_removeOutdated_le now (execOps cfg cv initState ops).store) h
  · intro modelArg maxLenArg t st hm hcap
    have hcap' : cfg.MAX_SESSIONS ≤ (TimedStorage.removeOutdated t st.store).length := hcap
    constructor
    · simp [http_api_open_inference_session, hm, hcap']
    · simp [http_api_open_inference_session, hm, hcap']

/-- The second session entry of the saturated fixture registry. -/
def e1 : Entry := ⟨⟨1, 1024⟩, 1, 10⟩

/-- A registry at full capacity for `cfg0` (2 of 2 sessions live at time 0). -/
def stFull : RegistryState := ⟨[(0, e0), (1, e1)], 2, 2, 2⟩

/-- Three opens against capacity 2. -/
def ops0 : List Op := [Op.openOp none none 0, Op.openOp none none 0, Op.openOp none none 0]

/-- C1 witness: after three opens the live count still respects the cap, and
an open on the saturated registry fails with the capacity error, leaving the
handle source untouched. -/
theorem capacity_invariant_witness :
    liveCount 0 (execOps cfg0 cv0 initState ops0) ≤ cfg0.MAX_SESSIONS
    ∧ http_api_open_inference_session cfg0 cv0 none none 0 stFull
        = ({ stFull with store := TimedStorage.removeOutdated 0 stFull.store },
           .error (.capacityExceeded cfg0.MAX_SESSIONS))
    ∧ (http_api_open_inference_session cfg0 cv0 none none 0 stFull).1.nextHandle
        = stFull.nextHandle := by
  have h := capacity_invariant cfg0 cv0 ops0 0
  have h2 := h.2 none none 0 stFull (by decide) (by decide)
  exact ⟨h.1, h2.1, h2.2⟩

/-! Concurrency model for the session-bound generate path. `http_api_generate`
holds `storage_lock` only for the O(1) lookup-and-refresh, then runs the
external invocation inside `with session_lock:` (lines 218-228). The model
below captures N request-handler threads at that point: thread `i` has
already resolved its session and targets the per-session `threading.Lock`
identified by `lockOf i` (the looked-up entry's lock identity — preserved by
every refresh, see `refresh_preserves_payload`). Each thread acquires,
performs the external invocation (an interval delimited by begin/end), then
releases; a `threading.Lock` acquisition blocks exactly while some holder
exists, and threads interleave arbitrarily otherwise. -/

/-- N generate threads; thread `i` is bound to the session lock `lockOf i`. -/
structure LockSys where
  n : Nat
  lockOf : Nat → Nat

/-- Thread program counters: 0 waiting to acquire, 1 lock held before the
invocation, 2 invocation in progress, 3 invocation finished with the lock
still held, 4 released and done. `holder l` is the thread holding lock `l`. -/
structure LockState where
  pcs : Nat → Nat
  holder : Nat → Option Nat

/-- Every thread before its acquire, every lock free. -/
def LockState.init : LockState := ⟨fun _ => 0, fun _ => none⟩

/-- Scheduling events of the model. -/
inductive TEv
  | tAcquire (i : Nat)
  | tBegin (i : Nat)
  | tEnd (i : Nat)
  | tRelease (i : Nat)
deriving Repr, DecidableEq

/-- Interleaving small-step semantics of the `with session_lock:` block:
acquire fires only while the lock has no holder (blocking acquisition);
begin/end delimit the external invocation; release frees the lock. -/
inductive LockStep (sys : LockSys) : LockState → TEv → LockState → Prop
  | acq (s : LockState) (i : Nat) (hi : i < sys.n) (hpc : s.pcs i = 0)
      (hfree : s.holder (sys.lockOf i) = none) :
      LockStep sys s (.tAcquire i)
        ⟨Function.update s.pcs i 1, Function.update s.holder (sys.lockOf i) (some i)⟩
  | beginInv (s : LockState) (i : Nat) (hi : i < sys.n) (hpc : s.pcs i = 1) :
      LockStep sys s (.tBegin i) ⟨Function.update s.pcs i 2, s.holder⟩
  | endInv (s : LockState) (i : Nat) (hi : i < sys.n) (hpc : s.pcs i = 2) :
      LockStep sys s (.tEnd i) ⟨Function.update s.pcs i 3, s.holder⟩
  | rel (s : LockState) (i : Nat) (hi : i < sys.n) (hpc : s.pcs i = 3) :
      LockStep sys s (.tRelease i)
        ⟨Function.update s.pcs i 4, Function.update s.holder (sys.lockOf i) none⟩

/-- Finite executions, collecting the emitted events in order. -/
inductive LockExec (sys : LockSys) : LockState → List TEv → LockState → Prop
  | done (s : LockState) : LockExec sys s [] s
  | step {s₁ s₂ s₃ : LockState} {e : TEv} {tr : List TEv} :
      LockStep sys s₁ e s₂ → LockExec sys s₂ tr s₃ → LockExec sys s₁ (e :: tr) s₃

/-- The lock-discipline invariant: threads outside the system never move; a
thread in its holding phase is the registered holder of its lock; every
registered holder is a system thread in its holding phase on that lock. -/
def lockInv (sys : LockSys) (s : LockState) : Prop :=
  (∀ i, sys.n ≤ i → s.pcs i = 0)
  ∧ (∀ i, i < sys.n → 1 ≤ s.pcs i → s.pcs i ≤ 3 → s.holder (sys.lockOf i) = some i)
  ∧ (∀ l j, s.holder l = some j →
      j < sys.n ∧ sys.lockOf j = l ∧ 1 ≤ s.pcs j ∧ s.pcs j ≤ 3)

/-- Invocations begun so far, read off a trace. -/
def begCount (tr : List TEv) : Nat :=
  (tr.filter (fun e => match e with | .tBegin _ => true | _ => false)).length

/-- Threads of `sys` whose invocation has begun in state `s`. -/
def begSum (sys : LockSys) (s : LockState) : Nat :=
  Finset.sum (Finset.range sys.n) (fun i => if 2 ≤ s.pcs i then 1 else 0)

theorem begSum_update (n i v : Nat) (pcs : Nat → Nat) (hi : i < n) :
    Finset.sum (Finset.range n) (fun j => if 2 ≤ Function.update pcs i v j then 1 else 0)
      + (if 2 ≤ pcs i then 1 else 0)
      = Finset.sum (Finset.range n) (fun j => if 2 ≤ pcs j then 1 else 0)
        + (if 2 ≤ v then 1 else 0) := by
  have hmem : i ∈ Finset.range n := Finset.mem_range.mpr hi
  have h1 : (fun j => if 2 ≤ Function.update pcs i v j then 1 else 0)
      = Function.update (fun j => if 2 ≤ pcs j then 1 else 0) i
          (if 2 ≤ v then 1 else 0) := by
    funext j
    by_cases hj : j = i
    · subst hj; simp [Function.update]
    · simp [Function.update, hj]
  rw [h1, Finset.sum_update_of_mem hmem,
    Finset.sum_eq_sum_diff_singleton_add hmem (fun j => if 2 ≤ pcs j then 1 else 0)]
  omega


/-- Contribution of one event to the invocation count. -/
def begDelta : TEv → Nat
  | .tBegin _ => 1
  | _ => 0


theorem begCount_cons (e : TEv) (tr : List TEv) :
    begCount (e :: tr) = begDelta e + begCount tr := by
  cases e with
  | tAcquire i => simp [begCount, begDelta, List.filter_cons]
  | tBegin i =>
    simp only [begCount, begDelta, List.filter_cons]
    simp
    omega
  | tEnd i => simp [begCount, begDelta, List.filter_cons]
  | tRelease i => simp [begCount, begDelta, List.filter_cons]

theorem lockStep_inv (sys : LockSys) (s₁ s₂ : LockState) (e : TEv)
    (hstep : LockStep sys s₁ e s₂) (hinv : lockInv sys s₁) :
    lockInv sys s₂ ∧ begSum sys s₂ = begSum sys s₁ + begDelta e := by
  obtain ⟨hout, hhold, hreg⟩ := hinv
  cases hstep with
  | acq i hi hpc hfree =>
    refine ⟨⟨?_, ?_, ?_⟩, ?_⟩ <;> dsimp only [lockInv, begSum, begDelta]
    · intro j hj
      have hij : j ≠ i := by omega
      simpa [Function.update, hij] using hout j hj
    · intro j hj h1 h3
      by_cases hij : j = i
      · subst hij
        simp [Function.update]
      · rw [show Function.update s₁.pcs i 1 j = s₁.pcs j by
          simp [Function.update, hij]] at h1 h3
        have hh := hhold j hj h1 h3
        have hll : sys.lockOf j ≠ sys.lockOf i := by
          intro hl
          rw [hl, hfree] at hh
          exact Option.noConfusion hh
        simpa [Function.update, hll] using hh
    · intro l j hl
      by_cases hli : l = sys.lockOf i
      · subst hli
        have hij : i = j := by simpa [Function.update] using hl
        subst hij
        exact ⟨hi, rfl, by simp [Function.update], by simp [Function.update]⟩
      · rw [show Function.update s₁.holder (sys.lockOf i) (some i) l = s₁.holder l by
          simp [Function.update, hli]] at hl
        obtain ⟨hj1, hj2, hj3, hj4⟩ := hreg l j hl
        have hij : j ≠ i := by
          intro hji
          rw [hji, hpc] at hj3
          omega
        exact ⟨hj1, hj2, by simpa [Function.update, hij] using hj3,
          by simpa [Function.update, hij] using hj4⟩
    · have hb := begSum_update sys.n i 1 s₁.pcs hi
      rw [hpc, if_neg (by omega : ¬ (2:Nat) ≤ 0),
        if_neg (by omega : ¬ (2:Nat) ≤ 1)] at hb
      omega
  | beginInv i hi hpc =>
    refine ⟨⟨?_, ?_, ?_⟩, ?_⟩ <;> dsimp only [lockInv, begSum, begDelta]
    · intro j hj
      have hij : j ≠ i := by omega
      simpa [Function.update, hij] using hout j hj
    · intro j hj h1 h3
      by_cases hij : j = i
      · subst hij
        exact hhold j hj (by omega) (by omega)
      · rw [show Function.update s₁.pcs i 2 j = s₁.pcs j by
          simp [Function.update, hij]] at h1 h3
        exact hhold j hj h1 h3
    · intro l j hl
      obtain ⟨hj1, hj2, hj3, hj4⟩ := hreg l j hl
      by_cases hij : j = i
      · subst hij
        exact ⟨hj1, hj2, by simp [Function.update], by simp [Function.update]⟩
      · exact ⟨hj1, hj2, by simpa [Function.update, hij] using hj3,
          by simpa [Function.update, hij] using hj4⟩
    · have hb := begSum_update sys.n i 2 s₁.pcs hi
      rw [hpc, if_neg (by omega : ¬ (2:Nat) ≤ 1),
        if_pos (by omega : (2:Nat) ≤ 2)] at hb
      omega
  | endInv i hi hpc =>
    refine ⟨⟨?_, ?_, ?_⟩, ?_⟩ <;> dsimp only [lockInv, begSum, begDelta]
    · intro j hj
      have hij : j ≠ i := by omega
      simpa [Function.update, hij] using hout j hj
    · intro j hj h1 h3
      by_cases hij : j = i
      · subst hij
        exact hhold j hj (by omega) (by omega)
      · rw [show Function.update s₁.pcs i 3 j = s₁.pcs j by
          simp [Function.update, hij]] at h1 h3
        exact hhold j hj h1 h3
    · intro l j hl
      obtain ⟨hj1, hj2, hj3, hj4⟩ := hreg l j hl
      by_cases hij : j = i
      · subst hij
        exact ⟨hj1, hj2, by simp [Function.update], by simp [Function.update]⟩
      · exact ⟨hj1, hj2, by simpa [Function.update, hij] using hj3,
          by simpa [Function.update, hij] using hj4⟩
    · have hb := begSum_update sys.n i 3 s₁.pcs hi
      rw [hpc, if_pos (by omega : (2:Nat) ≤ 2),
        if_pos (by omega : (2:Nat) ≤ 3)] at hb
      omega
  | rel i hi hpc =>
    refine ⟨⟨?_, ?_, ?_⟩, ?_⟩ <;> dsimp only [lockInv, begSum, begDelta]
    · intro j hj
      have hij : j ≠ i := by omega
      simpa [Function.update, hij] using hout j hj
    · intro j hj h1 h3
      by_cases hij : j = i
      · subst hij
        rw [show Function.update s₁.pcs j 4 j = 4 by simp [Function.update]] at h3
        omega
      · rw [show Function.update s₁.pcs i 4 j = s₁.pcs j by
          simp [Function.update, hij]] at h1 h3
        have hh := hhold j hj h1 h3
        have hii := hhold i hi (by omega) (by omega)
        have hll : sys.lockOf j ≠ sys.lockOf i := by
          intro hl
          rw [hl, hii] at hh
          have hij2 : i = j := by simpa using hh
          exact hij hij2.symm
        simpa [Function.update, hll] using hh
    · intro l j hl
      by_cases hli : l = sys.lockOf i
      · subst hli
        simp [Function.update] at hl
      · rw [show Function.update s₁.holder (sys.lockOf i) none l = s₁.holder l by
          simp [Function.update, hli]] at hl
        obtain ⟨hj1, hj2, hj3, hj4⟩ := hreg l j hl
        have hij : j ≠ i := by
          intro hji
          rw [hji] at hj2
          exact hli hj2.symm
        exact ⟨hj1, hj2, by simpa [Function.update, hij] using hj3,
          by simpa [Function.update, hij] using hj4⟩
    · have hb := begSum_update sys.n i 4 s₁.pcs hi
      rw [hpc, if_pos (by omega : (2:Nat) ≤ 3),
        if_pos (by omega : (2:Nat) ≤ 4)] at hb
      omega

theorem lockExec_inv (sys : LockSys) {s₁ s₂ : LockState} {tr : List TEv}
    (hex : LockExec sys s₁ tr s₂) (hinv : lockInv sys s₁) :
    lockInv sys s₂ ∧ begSum sys s₂ = begSum sys s₁ + begCount tr := by
  induction hex with
  | done s => exact ⟨hinv, by simp [begCount]⟩
  | step hstep hrest ih =>
    obtain ⟨hinv2, hsum1⟩ := lockStep_inv _ _ _ _ hstep hinv
    obtain ⟨hinv3, hsum2⟩ := ih hinv2
    refine ⟨hinv3, ?_⟩
    rw [hsum2, hsum1, begCount_cons]
    omega

/-- C2: in the concurrency model of the session-bound generate path — N
request threads, thread `i` bound to the per-session lock `lockOf i` of the
session its request names — every execution from the initial state
satisfies: (1) mutual exclusion: two threads bound to the same session lock
are never simultaneously mid-invocation, so invocations on one session are
strictly sequential (non-overlapping); (2) completed executions contain
exactly N invocation-begin events — the N concurrent calls perform exactly N
invocations; (3) isolation: a waiting thread whose own session lock is free
can always take its acquire step, whatever every other session's lock or
thread is doing — generate calls on distinct sessions never block each
other on the per-session lock; (4) the holder that can block a thread is
always a thread bound to that very lock. -/
theorem http_api_generate_mutual_exclusion (sys : LockSys) (tr : List TEv)
    (s : LockState) (hex : LockExec sys LockState.init tr s) :
    (∀ i j, s.pcs i = 2 → s.pcs j = 2 → sys.lockOf i = sys.lockOf j → i = j)
    ∧ ((∀ i, i < sys.n → s.pcs i = 4) → begCount tr = sys.n)
    ∧ (∀ i, i < sys.n → s.pcs i = 0 → s.holder (sys.lockOf i) = none →
        LockStep sys s (.tAcquire i)
          ⟨Function.update s.pcs i 1,
           Function.update s.holder (sys.lockOf i) (some i)⟩)
    ∧ (∀ l j, s.holder l = some j → sys.lockOf j = l) := by
  have hinit : lockInv sys LockState.init :=
    ⟨fun i _ => rfl,
     fun i _ h1 _ => by simp [LockState.init] at h1,
     fun l j hl => by simp [LockState.init] at hl⟩
  obtain ⟨hinv, hsum⟩ := lockExec_inv sys hex hinit
  obtain ⟨hout, hhold, hreg⟩ := hinv
  refine ⟨?_, ?_, ?_, ?_⟩
  · intro i j hi2 hj2 hll
    have hin : i < sys.n := by
      by_contra hc
      have h0 := hout i (Nat.le_of_not_lt hc)
      omega
    have hjn : j < sys.n := by
      by_contra hc
      have h0 := hout j (Nat.le_of_not_lt hc)
      omega
    have h1 := hhold i hin (by omega) (by omega)
    have h2 := hhold j hjn (by omega) (by omega)
    rw [hll] at h1
    exact Option.some.inj (h1.symm.trans h2)
  · intro hdone
    have hzero : begSum sys LockState.init = 0 := by
      simp [begSum, LockState.init]
    have hone : ∀ i ∈ Finset.range sys.n, (if 2 ≤ s.pcs i then 1 else 0) = 1 := by
      intro i hi
      rw [hdone i (Finset.mem_range.mp hi)]
      decide
    have hfull : begSum sys s = sys.n := by
      unfold begSum
      rw [Finset.sum_congr rfl hone, Finset.sum_const, smul_eq_mul, mul_one,
        Finset.card_range]
    omega
  · intro i hi h0 hfree
    exact LockStep.acq s i hi h0 hfree
  · intro l j hl
    exact (hreg l j hl).2.1

/-- A one-thread system on lock 0 for the witness execution. -/
@[reducible] def sysW : LockSys := ⟨1, fun _ => 0⟩

/-- Its complete trace: acquire, invocation begins, invocation ends, release. -/
@[reducible] def trW : List TEv := [.tAcquire 0, .tBegin 0, .tEnd 0, .tRelease 0]

/-- The states along that execution. -/
@[reducible] def lsW1 : LockState :=
  ⟨Function.update LockState.init.pcs 0 1,
   Function.update LockState.init.holder (sysW.lockOf 0) (some 0)⟩

@[reducible] def lsW2 : LockState := ⟨Function.update lsW1.pcs 0 2, lsW1.holder⟩

@[reducible] def lsW3 : LockState := ⟨Function.update lsW2.pcs 0 3, lsW2.holder⟩

@[reducible] def lsW4 : LockState :=
  ⟨Function.update lsW3.pcs 0 4, Function.update lsW3.holder (sysW.lockOf 0) none⟩

/-- C2 witness: the complete one-thread execution reaches the all-done state;
the theorem instantiates to mutual exclusion there, the exact invocation
count 1, enabled acquisition, and same-lock-only blocking. -/
theorem http_api_generate_mutual_exclusion_witness :
    (∀ i j, lsW4.pcs i = 2 → lsW4.pcs j = 2 → sysW.lockOf i = sysW.lockOf j → i = j)
    ∧ ((∀ i, i < sysW.n → lsW4.pcs i = 4) → begCount trW = sysW.n)
    ∧ (∀ i, i < sysW.n → lsW4.pcs i = 0 → lsW4.holder (sysW.lockOf i) = none →
        LockStep sysW lsW4 (.tAcquire i)
          ⟨Function.update lsW4.pcs i 1,
           Function.update lsW4.holder (sysW.lockOf i) (some i)⟩)
    ∧ (∀ l j, lsW4.holder l = some j → sysW.lockOf j = l)
    ∧ begCount trW = sysW.n := by
  have hexec : LockExec sysW LockState.init trW lsW4 := by
    refine LockExec.step (LockStep.acq _ 0 ?_ ?_ ?_)
      (LockExec.step (LockStep.beginInv _ 0 ?_ ?_)
        (LockExec.step (LockStep.endInv _ 0 ?_ ?_)
          (LockExec.step (LockStep.rel _ 0 ?_ ?_) (LockExec.done _)))) <;> decide
  have h := http_api_generate_mutual_exclusion sysW trW lsW4 hexec
  refine ⟨h.1, h.2.1, h.2.2.1, h.2.2.2, h.2.1 ?_⟩
  intro i hi
  have hi1 : i < 1 := hi
  have hi0 : i = 0 := by omega
  subst hi0
  decide
